import Mathlib

/-!
Verification development for the beat-gen TUI audio engine
(`src/tui/services/player.py`, `src/tui/services/waveform.py`,
`src/tui/services/samples.py`, `src/tui/services/session.py`).

Shallow embedding conventions:
* Python `float` millisecond/dB values are modelled as `ℚ` (the code only
  performs field arithmetic, comparisons, `min`/`max` on them).
* Python `int` frequency fields are modelled as `ℤ`.
* The ffmpeg filter strings produced by `build_filter_chain` are modelled as
  lists of `FilterStage` descriptors, one constructor per filter expression
  that the code can emit, carrying the numeric parameters that the code
  interpolates into the string.  The `asetrate` stage produced for a pitch
  shift of `s` semitones carries the triple `(44100, s, 12)` standing for the
  rate expression `44100 * 2 ^ (s / 12)` that the code writes textually.
* The asynchronous process layer (`afplay`, `ffmpeg` subprocesses) is
  modelled by a small-step semantics over a `World` carrying the `Player`
  state, a fresh-pid/fresh-tempfile counter, the set of live playback
  process ids, and an event trace.  Outcomes decided by the environment
  (how a process dies in `stop`, the exit code of a render) are supplied as
  oracle parameters of each operation, so every exceptional path of the
  Python code (`ProcessLookupError`, `asyncio.TimeoutError`) corresponds to
  one oracle value and the model stays a total function.
-/

/-- Per-instrument non-destructive edit parameters, mirroring the
`SampleEdits` dataclass of `src/tui/services/session.py` (field defaults
included). -/
structure SampleEdits where
  attack_ms : ℚ := 0
  release_ms : ℚ := 0
  gain_db : ℚ := 0
  normalize : Bool := false
  hp_freq : ℤ := 20
  lp_freq : ℤ := 20000
  reverse : Bool := false
  trim_start_ms : ℚ := 0
  trim_end_ms : ℚ := 0
  deriving DecidableEq, Repr

/-- The all-defaults `SampleEdits()` value that `is_default` compares
against. -/
def defaultEdits : SampleEdits := {}

/-- Mirror of `SampleEdits.is_default`: equality with a freshly constructed
default instance. -/
def SampleEdits.is_default (e : SampleEdits) : Bool :=
  decide (e = defaultEdits)

/-- One ffmpeg filter expression emitted by `build_filter_chain` or by the
pitch-shift code of `Player.play_pitched` / `Player.play_with_edits`.
Numeric parameters are the values the Python code interpolates into the
filter string; `asetrate base num den` stands for the textual rate
expression `base * 2 ^ (num / den)` (the code writes
`asetrate=44100*{2 ** (semitones / 12)}`). -/
inductive FilterStage where
  | atrim (start_ms end_ms : ℚ)
  | asetpts
  | areverse
  | afadeIn (d_s : ℚ)
  | afadeOut (st_s d_s : ℚ)
  | volume (db : ℚ)
  | highpass (f : ℤ)
  | lowpass (f : ℤ)
  | dynaudnorm
  | asetrate (base : ℕ) (num : ℤ) (den : ℕ)
  | aresample (rate : ℕ)
  deriving DecidableEq, Repr

/-- Trim block of `build_filter_chain` (step 1 in the source): emitted when
either trim field is positive; end offset `duration_ms - trim_end_ms`,
clamped to `trim_start_ms + 50` when it falls before `trim_start_ms`;
followed by the `asetpts=PTS-STARTPTS` timestamp reset. -/
def trimStages (e : SampleEdits) (duration_ms : ℚ) : List FilterStage :=
  if e.trim_start_ms > 0 ∨ e.trim_end_ms > 0 then
    let end_ms := duration_ms - e.trim_end_ms
    let end_ms := if end_ms < e.trim_start_ms then e.trim_start_ms + 50 else end_ms
    [.atrim e.trim_start_ms end_ms, .asetpts]
  else []

/-- Reverse block (step 2 in the source). -/
def reverseStages (e : SampleEdits) : List FilterStage :=
  if e.reverse then [.areverse] else []

/-- Effective duration in seconds used by the fade block (step 3):
`max((duration_ms - trim_start_ms - trim_end_ms) / 1000, 0.05)`. -/
def effectiveDurS (e : SampleEdits) (duration_ms : ℚ) : ℚ :=
  max ((duration_ms - e.trim_start_ms - e.trim_end_ms) / 1000) (1/20)

/-- Attack-fade block (step 3 in the source). -/
def attackStages (e : SampleEdits) (duration_ms : ℚ) : List FilterStage :=
  if e.attack_ms > 0 then
    [.afadeIn (min (e.attack_ms / 1000) (effectiveDurS e duration_ms * (9/10)))]
  else []

/-- Release-fade block (step 3 in the source). -/
def releaseStages (e : SampleEdits) (duration_ms : ℚ) : List FilterStage :=
  if e.release_ms > 0 then
    let release_s := min (e.release_ms / 1000) (effectiveDurS e duration_ms * (9/10))
    let fade_start := max (effectiveDurS e duration_ms - release_s) 0
    [.afadeOut fade_start release_s]
  else []

/-- Gain block (step 4 in the source). -/
def gainStages (e : SampleEdits) : List FilterStage :=
  if e.gain_db ≠ 0 then [.volume e.gain_db] else []

/-- High-pass block (step 5 in the source): emitted iff `hp_freq > 20`. -/
def hpStages (e : SampleEdits) : List FilterStage :=
  if e.hp_freq > 20 then [.highpass e.hp_freq] else []

/-- Low-pass block (step 5 in the source): emitted iff `lp_freq < 20000`. -/
def lpStages (e : SampleEdits) : List FilterStage :=
  if e.lp_freq < 20000 then [.lowpass e.lp_freq] else []

/-- Normalize block (step 6 in the source). -/
def normStages (e : SampleEdits) : List FilterStage :=
  if e.normalize then [.dynaudnorm] else []

/-- Mirror of `build_filter_chain` in `src/tui/services/player.py`: the
blocks are appended in the source's fixed order
trim → reverse → fades → gain → HP/LP → normalize. -/
def build_filter_chain (e : SampleEdits) (duration_ms : ℚ) : List FilterStage :=
  trimStages e duration_ms ++ reverseStages e ++
  attackStages e duration_ms ++ releaseStages e duration_ms ++
  gainStages e ++ hpStages e ++ lpStages e ++ normStages e

/-- Pitch-shift filter pair appended by `Player.play_with_edits` when
`pitch != 0`: `asetrate=44100*{2 ** (pitch / 12)},aresample=44100`. -/
def pitchStages (pitch : ℤ) : List FilterStage :=
  [.asetrate 44100 pitch 12, .aresample 44100]

/-- Combined chain assembled inside `Player.play_with_edits`
(lines 126-132): the edit chain with the pitch pair appended iff
`pitch != 0`. -/
def combinedChain (e : SampleEdits) (duration_ms : ℚ) (pitch : ℤ) : List FilterStage :=
  let chain := build_filter_chain e duration_ms
  if pitch ≠ 0 then chain ++ pitchStages pitch else chain

/-- Position of a stage in the fixed order of the filter chain:
trim (with its timestamp reset) → reverse → fades → gain →
high-pass/low-pass tone filters → normalize → pitch shift. -/
def stageRank : FilterStage → ℕ
  | .atrim _ _ => 0
  | .asetpts => 0
  | .areverse => 1
  | .afadeIn _ => 2
  | .afadeOut _ _ => 2
  | .volume _ => 3
  | .highpass _ => 4
  | .lowpass _ => 4
  | .dynaudnorm => 5
  | .asetrate _ _ _ => 6
  | .aresample _ => 6

/-! ## Playback controller (`Player` in `src/tui/services/player.py`)

The `Player` methods are `async`; their interleaving with the external
processes is modelled by a `World` state threaded through each operation.
Each operation is a total function of the state plus oracle values chosen
by the environment: a `StopMode` describing how the live process reacts to
`terminate`/`kill` in `Player.stop`, and an integer exit code for each
ffmpeg render.  Exceptions of the Python code (`ProcessLookupError`,
`asyncio.TimeoutError`) are all caught inside `stop`; each corresponds to
one `StopMode` value, so no operation of the model can fail. -/

/-- Handle of a spawned external process: its pid and the exit code
observed so far (`none` while running), mirroring
`asyncio.subprocess.Process.returncode`. -/
structure Proc where
  pid : ℕ
  returncode : Option ℤ
  deriving DecidableEq, Repr

/-- The mutable fields of the Python `Player` object: `_process`,
`_current_file`, `_temp_files`. -/
structure PlayerState where
  process : Option Proc
  current_file : Option String
  temp_files : List String
  deriving DecidableEq, Repr

/-- Mirror of the `Player.is_playing` property:
`self._process is not None and self._process.returncode is None`. -/
def PlayerState.is_playing (s : PlayerState) : Bool :=
  match s.process with
  | some p => decide (p.returncode = none)
  | none => false

/-- Observable events of a run, in the order they are performed:
process spawns, signals sent in `stop`, confirmation that the stopped
process is gone, render-process exits, and `unlink` calls on transient
files. -/
inductive Event where
  | spawnPlay (pid : ℕ) (path : String)
  | spawnRender (pid : ℕ) (src dst : String)
  | renderExit (pid : ℕ) (code : ℤ)
  | terminate (pid : ℕ)
  | kill (pid : ℕ)
  | exitConfirmed (pid : ℕ)
  | deleteFile (f : String)
  deriving DecidableEq, Repr

/-- Environment oracle for the `try/except` ladder in `Player.stop`:
`graceful` = `terminate()` succeeds and `wait()` returns within the 1 s
timeout; `alreadyGone` = `terminate()` raises `ProcessLookupError` (the
except branch then calls `kill()`, which raises again and is passed);
`timeoutKill` = `wait()` times out and `kill()` succeeds; `timeoutGone`
= `wait()` times out and `kill()` raises `ProcessLookupError`. -/
inductive StopMode where
  | graceful
  | alreadyGone
  | timeoutKill
  | timeoutGone
  deriving DecidableEq, Repr

/-- Events performed on the live process by `Player.stop` lines 84-92
under a given oracle outcome.  In every mode the sequence ends with the
process confirmed gone (`wait()` returned, `ProcessLookupError` observed,
or `kill()` delivered), which the model records as `exitConfirmed`. -/
def stopProcEvents (m : StopMode) (pid : ℕ) : List Event :=
  match m with
  | .graceful => [.terminate pid, .exitConfirmed pid]
  | .alreadyGone => [.terminate pid, .kill pid, .exitConfirmed pid]
  | .timeoutKill => [.terminate pid, .kill pid, .exitConfirmed pid]
  | .timeoutGone => [.terminate pid, .kill pid, .exitConfirmed pid]

/-- Events performed by one execution of `Player.stop`: the
terminate/wait/kill ladder when a live process is held (guard
`self._process and self._process.returncode is None`), followed by
`_cleanup_temp`, which unlinks every registered transient file. -/
def stopEvents (s : PlayerState) (m : StopMode) : List Event :=
  (match s.process with
   | some p => if p.returncode = none then stopProcEvents m p.pid else []
   | none => []) ++ s.temp_files.map Event.deleteFile

/-- Global state of a run: the `Player` fields, a counter supplying fresh
pids for spawned processes, a counter supplying fresh
`tempfile.NamedTemporaryFile` names, the pids of playback (`afplay`)
processes that are currently live, and the event trace so far. -/
structure World where
  player : PlayerState
  nextPid : ℕ
  nextTmp : ℕ
  live : List ℕ
  trace : List Event
  deriving DecidableEq, Repr

/-- Fresh transient-file name produced by `tempfile.NamedTemporaryFile`. -/
def tmpWavName (n : ℕ) : String := "tmp" ++ toString n ++ ".wav"

namespace Player

/-- Mirror of `Player.stop` (lines 83-95): terminate/wait/kill the live
process if any, then null out `_process` and `_current_file` and run
`_cleanup_temp` (unlink + clear of `_temp_files`).  The stopped pid leaves
the live set. -/
def stop (w : World) (m : StopMode) : World :=
  let liveAfter :=
    match w.player.process with
    | some p => if p.returncode = none then w.live.filter (· ≠ p.pid) else w.live
    | none => w.live
  { player := { process := none, current_file := none, temp_files := [] }
    nextPid := w.nextPid
    nextTmp := w.nextTmp
    live := liveAfter
    trace := w.trace ++ stopEvents w.player m }

/-- Mirror of `Player.play` (lines 74-81): full `stop`, set
`_current_file`, then spawn `afplay path`, which becomes the live
process. -/
def play (w : World) (path : String) (m : StopMode) : World :=
  let w1 := stop w m
  { player := { process := some { pid := w1.nextPid, returncode := none }
                current_file := some path
                temp_files := w1.player.temp_files }
    nextPid := w1.nextPid + 1
    nextTmp := w1.nextTmp
    live := w1.live ++ [w1.nextPid]
    trace := w1.trace ++ [.spawnPlay w1.nextPid path] }

/-- Shared render step of `play_pitched` (lines 103-116) and
`play_with_edits` (lines 139-151), which the source duplicates verbatim:
create a fresh `NamedTemporaryFile`, register it in `_temp_files`, spawn
ffmpeg rendering `src` into it, and await its exit code (recorded in the
trace).  The ffmpeg process has fully exited by the end of this step. -/
def renderToTmp (w : World) (src : String) (renderCode : ℤ) : World :=
  let tmp := tmpWavName w.nextTmp
  { player := { w.player with temp_files := w.player.temp_files ++ [tmp] }
    nextPid := w.nextPid + 1
    nextTmp := w.nextTmp + 1
    live := w.live
    trace := w.trace ++ [.spawnRender w.nextPid src tmp, .renderExit w.nextPid renderCode] }

/-- Mirror of `Player.play_pitched` (lines 97-118): delegate to `play`
when `semitones == 0`; otherwise stop, create and register a transient
file, render through ffmpeg with the pitch filter pair, await the render
exit code, and play the transient file only when the code is zero. -/
def play_pitched (w : World) (path : String) (semitones : ℤ) (m : StopMode)
    (renderCode : ℤ) : World :=
  if semitones = 0 then play w path m
  else
    let w1 := stop w m
    let w3 := renderToTmp w1 path renderCode
    if renderCode = 0 then play w3 (tmpWavName w1.nextTmp) m else w3

/-- Mirror of `Player.play_with_edits` (lines 120-153): compile the
combined chain; when it is empty, delegate to `play` on the original
path; otherwise stop, create and register a transient file, render the
chain, and play the transient file only on a zero exit code. -/
def play_with_edits (w : World) (path : String) (e : SampleEdits)
    (duration_ms : ℚ) (pitch : ℤ) (m : StopMode) (renderCode : ℤ) : World :=
  let chain := combinedChain e duration_ms pitch
  if chain = [] then play w path m
  else
    let w1 := stop w m
    let w3 := renderToTmp w1 path renderCode
    if renderCode = 0 then play w3 (tmpWavName w1.nextTmp) m else w3

/-- Mirror of `Player.cleanup` (lines 163-164). -/
def cleanup (w : World) (m : StopMode) : World := stop w m

end Player

/-- One externally observable call on the `Player`, bundled with the
oracle values the environment chooses for it.  `procExit` is the
environment step in which the live playback process finishes on its own
(its `returncode` becomes set). -/
inductive Cmd where
  | play (path : String) (m : StopMode)
  | play_pitched (path : String) (semitones : ℤ) (m : StopMode) (renderCode : ℤ)
  | play_with_edits (path : String) (e : SampleEdits) (duration_ms : ℚ) (pitch : ℤ)
      (m : StopMode) (renderCode : ℤ)
  | stop (m : StopMode)
  | procExit

/-- Environment step in which the live playback process finishes on its
own: its `returncode` becomes set and it leaves the live set.  A world
with no running process is unchanged. -/
def procExitStep (w : World) : World :=
  match w.player.process with
  | some pr =>
    if pr.returncode = none then
      { w with
        player := { w.player with process := some { pr with returncode := some 0 } }
        live := w.live.filter (· ≠ pr.pid) }
    else w
  | none => w

/-- Small-step semantics: execute one call on the world. -/
def step (w : World) : Cmd → World
  | .play p m => Player.play w p m
  | .play_pitched p s m rc => Player.play_pitched w p s m rc
  | .play_with_edits p e d pi m rc => Player.play_with_edits w p e d pi m rc
  | .stop m => Player.stop w m
  | .procExit => procExitStep w

/-- Execute a sequence of calls. -/
def run (w : World) (cmds : List Cmd) : World := cmds.foldl step w

/-- A freshly constructed `Player()` with no history. -/
def initWorld : World :=
  { player := { process := none, current_file := none, temp_files := [] }
    nextPid := 0
    nextTmp := 0
    live := []
    trace := [] }

/-- The playback pids that should be live for a given `Player` state:
the held process while its `returncode` is unset, nothing otherwise. -/
def livePidsOf (s : PlayerState) : List ℕ :=
  match s.process with
  | some p => if p.returncode = none then [p.pid] else []
  | none => []

/-- Playback-exclusivity invariant: the live playback processes are
exactly the one the `Player` holds with an unset `returncode`, so there
is never more than one. -/
def LiveInv (w : World) : Prop :=
  w.live = livePidsOf w.player

/-! ## Waveform extractor (`src/tui/services/waveform.py`) -/

/-- Peak of one bin chunk: `max(abs(s) for s in chunk) if chunk else 0.0`.
The fold starting at 0 equals the maximum over a nonempty chunk because
every `|s|` is nonnegative. -/
def chunkPeak (chunk : List ℤ) : ℤ :=
  if chunk = [] then 0 else (chunk.map (fun s => |s|)).foldl max 0

/-- Binning phase of `get_waveform` (the `# Bin into peaks` block):
`bin_size = max(1, n_samples // bins)`, bin `i` covering
`samples[i*bin_size : min(i*bin_size + bin_size, n_samples)]`, an
out-of-range start yielding peak 0. -/
def binPeaks (samples : List ℤ) (bins : ℕ) : List ℤ :=
  let n := samples.length
  let bin_size := max 1 (n / bins)
  (List.range bins).map (fun i =>
    let start := i * bin_size
    if n ≤ start then 0
    else chunkPeak ((samples.drop start).take (min (start + bin_size) n - start)))

/-- Normalization phase of `get_waveform` (the `# Normalize to 0-1`
block): divide by the global maximum when it is positive.  The Python
`max(peaks) if peaks else 1.0` equals the fold from 0 for a nonempty peak
list because every peak is nonnegative. -/
def normalizePeaks (peaks : List ℤ) : List ℚ :=
  let mx : ℤ := peaks.foldl max 0
  if 0 < mx then peaks.map (fun p : ℤ => (p : ℚ) / (mx : ℚ))
  else peaks.map (fun p : ℤ => (p : ℚ))

/-- Mirror of `get_waveform` in `src/tui/services/waveform.py`, applied to
the decoded 16-bit sample stream (the ffmpeg decode and `struct.unpack`
steps are the input `samples`).  The guard `len(raw) < 2` is the
`samples = []` case.  The Python code raises `ZeroDivisionError` when
`bins = 0` and the stream is nonempty (`n_samples // bins`); the value of
this model at `bins = 0` is therefore not meaningful and all theorems
about it assume `0 < bins`. -/
def get_waveform (samples : List ℤ) (bins : ℕ) : List ℚ :=
  if samples.length = 0 then List.replicate bins 0
  else normalizePeaks (binPeaks samples bins)

/-- Modelled from the claim's wording, for comparison with `get_waveform`:
each value is "the maximum absolute sample magnitude over its contiguous
window of size `floor(total_samples / bin_count)`", normalized by the
global maximum when it is positive.  This differs from the source, which
clamps the window size below at 1. -/
def waveformClaimSpec (samples : List ℤ) (bins : ℕ) : List ℚ :=
  let w := samples.length / bins
  normalizePeaks ((List.range bins).map (fun i =>
    chunkPeak ((samples.drop (i * w)).take w)))

/-- Window size of the amended claim: `max(1, floor(total/bins))` (the
source's `bin_size`). -/
def specWindow (samples : List ℤ) (bins : ℕ) : ℕ :=
  max 1 (samples.length / bins)

/-- Peak of bin `i` stated the claim's way: maximum absolute magnitude
over the window starting at `i * window`, clamped to the stream end by
`take` (a window with no samples yields 0). -/
def specPeak (samples : List ℤ) (bins : ℕ) (i : ℕ) : ℤ :=
  chunkPeak ((samples.drop (i * specWindow samples bins)).take (specWindow samples bins))

/-- Global maximum across the claim-side bins. -/
def specMx (samples : List ℤ) (bins : ℕ) : ℤ :=
  ((List.range bins).map (specPeak samples bins)).foldl max 0

/-! ## Sample catalog (`src/tui/services/samples.py`)

Classification depends only on the filename, so `SampleFile` is modelled
without the `stat()`-derived fields (`size_bytes`, `duration_estimate`)
and the `path` object, which duplicate the environment rather than the
classification logic. -/

/-- Mirror of `DRUM_NOTE_MAP`: drum MIDI notes to instrument names. -/
def DRUM_NOTE_MAP : List (ℕ × String) :=
  [(36, "kick"), (38, "snare"), (42, "hihat"), (46, "hihat-open"),
   (37, "rimshot"), (39, "clap"), (44, "pedal-hihat"), (49, "crash"),
   (51, "ride"), (56, "cowbell"), (75, "clave")]

/-- Mirror of `DRUM_INSTRUMENTS`. -/
def DRUM_INSTRUMENTS : List String :=
  ["kick", "snare", "hihat", "hihat-open", "rimshot", "clap"]

/-- Mirror of `PITCHED_INSTRUMENTS`. -/
def PITCHED_INSTRUMENTS : List String :=
  ["bass", "lead", "pad", "arp", "fx", "subBass"]

/-- Mirror of `TEXTURE_INSTRUMENTS`. -/
def TEXTURE_INSTRUMENTS : List String :=
  ["vocalChop", "texture", "noise", "scratch", "atmosphere", "stab"]

/-- Mirror of `ALL_INSTRUMENTS`. -/
def ALL_INSTRUMENTS : List String :=
  DRUM_INSTRUMENTS ++ PITCHED_INSTRUMENTS ++ TEXTURE_INSTRUMENTS

/-- Classification result of `SampleManager._parse_file` (filename-derived
fields only). -/
structure SampleFile where
  filename : String
  instrument : String
  variant_num : Option ℕ := none
  midi_note : Option ℕ := none
  deriving DecidableEq, Repr

/-- Value of a nonempty decimal digit string, as `int()` computes it. -/
def digitsToNat (ds : List Char) : ℕ :=
  ds.foldl (fun a c => 10 * a + (c.toNat - '0'.toNat)) 0

/-- ASCII lowercasing of a string, as `str.lower()` on the names involved
(which are all ASCII). -/
def lowerStr (s : String) : String := String.mk (s.data.map Char.toLower)

/-- Mirror of `re.match(r'^(\d+)-(.+)', name)`: a maximal nonempty leading
digit run, a literal `-`, and at least one further character.  (The regex
cannot match with a shorter digit prefix: a proper prefix of the digit run
is followed by a digit, not `-`.)  Returns the note value and the part
after the dash. -/
def drum_match (name : List Char) : Option (ℕ × List Char) :=
  let ds := name.takeWhile Char.isDigit
  let rest := name.dropWhile Char.isDigit
  if ds.isEmpty then none
  else
    match rest with
    | '-' :: c :: tail => some (digitsToNat ds, c :: tail)
    | _ => none

/-- Mirror of `re.match(r'^([a-zA-Z]+)-v(\d+)', name)`: a maximal nonempty
leading letter run, the literal `-v`, and a nonempty digit run.  Returns
the name part and the variant value. -/
def inst_match (name : List Char) : Option (String × ℕ) :=
  let ls := name.takeWhile Char.isAlpha
  let rest := name.dropWhile Char.isAlpha
  if ls.isEmpty then none
  else
    match rest with
    | '-' :: 'v' :: r2 =>
      let ds := r2.takeWhile Char.isDigit
      if ds.isEmpty then none else some (String.mk ls, digitsToNat ds)
    | _ => none

/-- Split a filename into `Path.stem` and `Path.suffix` at the last dot. -/
def splitExt (s : String) : String × String :=
  let p := s.data.reverse.span (fun c => c ≠ '.')
  match p.2 with
  | '.' :: rstem => (String.mk rstem.reverse, String.mk ('.' :: p.1.reverse))
  | _ => (s, "")

/-- Mirror of `SampleManager._parse_file` (lines 59-96): the drum-note
pattern, then the variant pattern, then the case-insensitive bare-name
comparison, first success winning; `None` when nothing applies.  Note the
drum pattern falls through to the later patterns when the note has no map
entry, exactly as the Python `if inst:` guard does. -/
def parse_file (path : String) : Option SampleFile :=
  let name := (splitExt path).1
  let fromDrum : Option SampleFile :=
    match drum_match name.data with
    | some (note, _) =>
      match List.lookup note DRUM_NOTE_MAP with
      | some inst => some { filename := path, instrument := inst, midi_note := some note }
      | none => none
    | none => none
  match fromDrum with
  | some s => some s
  | none =>
    let fromVariant : Option SampleFile :=
      match inst_match name.data with
      | some (inst, v) =>
        if inst ∈ ALL_INSTRUMENTS then
          some { filename := path, instrument := inst, variant_num := some v }
        else none
      | none => none
    match fromVariant with
    | some s => some s
    | none =>
      match ALL_INSTRUMENTS.find? (fun inst => lowerStr name = lowerStr inst) with
      | some inst => some { filename := path, instrument := inst }
      | none => none

/-- The `{inst: [] for inst in ALL_INSTRUMENTS}` seed mapping of `scan`. -/
def emptyBuckets : List (String × List SampleFile) :=
  ALL_INSTRUMENTS.map (fun i => (i, []))

/-- Append a parsed sample to its instrument bucket when that bucket
exists, mirroring `if sample and sample.instrument in result:
result[sample.instrument].append(sample)`.  When no bucket matches, the
mapping is unchanged (the parsed file is silently dropped). -/
def addSample (res : List (String × List SampleFile)) (s : SampleFile) :
    List (String × List SampleFile) :=
  res.map (fun p => if p.1 = s.instrument then (p.1, p.2 ++ [s]) else p)

/-- One iteration of the `scan` loop: skip non-audio extensions, parse,
and bucket the result. -/
def scanStep (res : List (String × List SampleFile)) (f : String) :
    List (String × List SampleFile) :=
  if (splitExt f).2 ∈ [".mp3", ".wav"] then
    match parse_file f with
    | some s => addSample res s
    | none => res
  else res

/-- Mirror of `SampleManager.scan` (lines 42-57): the all-empty mapping
when the directory is missing, otherwise a fold of `scanStep` over the
directory entries.  The source iterates them in sorted order; the model
takes the file list as given, which only affects the order within a
bucket. -/
def scan (dirExists : Bool) (files : List String) :
    List (String × List SampleFile) :=
  if dirExists then files.foldl scanStep emptyBuckets else emptyBuckets

/-! ## Helper lemmas: shape and rank of the filter-chain blocks -/

theorem mem_trimStages_shape {e : SampleEdits} {d : ℚ} {s : FilterStage}
    (hs : s ∈ trimStages e d) : (∃ a b, s = .atrim a b) ∨ s = .asetpts := by
  unfold trimStages at hs
  split at hs
  · simp only [List.mem_cons, List.mem_singleton] at hs
    rcases hs with h | h | h
    · exact Or.inl ⟨_, _, h⟩
    · exact Or.inr h
    · simp at h
  · simp at hs

theorem mem_reverseStages_shape {e : SampleEdits} {s : FilterStage}
    (hs : s ∈ reverseStages e) : s = .areverse := by
  unfold reverseStages at hs
  split at hs <;> simp_all

theorem mem_attackStages_shape {e : SampleEdits} {d : ℚ} {s : FilterStage}
    (hs : s ∈ attackStages e d) : ∃ x, s = .afadeIn x := by
  unfold attackStages at hs
  split at hs <;> simp_all

theorem mem_releaseStages_shape {e : SampleEdits} {d : ℚ} {s : FilterStage}
    (hs : s ∈ releaseStages e d) : ∃ a b, s = .afadeOut a b := by
  unfold releaseStages at hs
  split at hs <;> simp_all

theorem mem_gainStages_shape {e : SampleEdits} {s : FilterStage}
    (hs : s ∈ gainStages e) : ∃ x, s = .volume x := by
  unfold gainStages at hs
  split at hs <;> simp_all

theorem mem_hpStages_shape {e : SampleEdits} {s : FilterStage}
    (hs : s ∈ hpStages e) : ∃ f, s = .highpass f := by
  unfold hpStages at hs
  split at hs <;> simp_all

theorem mem_lpStages_shape {e : SampleEdits} {s : FilterStage}
    (hs : s ∈ lpStages e) : ∃ f, s = .lowpass f := by
  unfold lpStages at hs
  split at hs <;> simp_all

theorem mem_normStages_shape {e : SampleEdits} {s : FilterStage}
    (hs : s ∈ normStages e) : s = .dynaudnorm := by
  unfold normStages at hs
  split at hs <;> simp_all

theorem chain_mem_cases {e : SampleEdits} {d : ℚ} {s : FilterStage}
    (hs : s ∈ build_filter_chain e d) :
    s ∈ trimStages e d ∨ s ∈ reverseStages e ∨ s ∈ attackStages e d ∨
    s ∈ releaseStages e d ∨ s ∈ gainStages e ∨ s ∈ hpStages e ∨
    s ∈ lpStages e ∨ s ∈ normStages e := by
  simp only [build_filter_chain, List.append_assoc, List.mem_append] at hs
  tauto

theorem chain_rank_le_five {e : SampleEdits} {d : ℚ} :
    ∀ s ∈ build_filter_chain e d, stageRank s ≤ 5 := by
  intro s hs
  rcases chain_mem_cases hs with h | h | h | h | h | h | h | h
  · rcases mem_trimStages_shape h with ⟨a, b, rfl⟩ | rfl <;> simp [stageRank]
  · rcases mem_reverseStages_shape h with rfl; simp [stageRank]
  · rcases mem_attackStages_shape h with ⟨x, rfl⟩; simp [stageRank]
  · rcases mem_releaseStages_shape h with ⟨a, b, rfl⟩; simp [stageRank]
  · rcases mem_gainStages_shape h with ⟨x, rfl⟩; simp [stageRank]
  · rcases mem_hpStages_shape h with ⟨f, rfl⟩; simp [stageRank]
  · rcases mem_lpStages_shape h with ⟨f, rfl⟩; simp [stageRank]
  · rcases mem_normStages_shape h with rfl; simp [stageRank]

theorem sorted_of_const {l : List ℕ} {c : ℕ} (h : ∀ x ∈ l, x = c) :
    List.Sorted (· ≤ ·) l := by
  induction l with
  | nil => exact List.sorted_nil
  | cons a t ih =>
    refine List.Pairwise.cons (fun b hb => ?_) (ih fun x hx => h x (List.mem_cons_of_mem _ hx))
    rw [h a (List.mem_cons_self a t), h b (List.mem_cons_of_mem _ hb)]

theorem sorted_block_append {c : ℕ} {l1 l2 : List ℕ}
    (h1 : ∀ x ∈ l1, x = c) (h2 : List.Sorted (· ≤ ·) l2)
    (h3 : ∀ x ∈ l2, c ≤ x) :
    List.Sorted (· ≤ ·) (l1 ++ l2) ∧ ∀ x ∈ l1 ++ l2, c ≤ x := by
  constructor
  · refine List.pairwise_append.mpr ⟨sorted_of_const h1, h2, fun a ha b hb => ?_⟩
    rw [h1 a ha]; exact h3 b hb
  · intro x hx
    rcases List.mem_append.mp hx with h | h
    · rw [h1 x h]
    · exact h3 x h

theorem rank_map_const {l : List FilterStage} {c : ℕ}
    (h : ∀ s ∈ l, stageRank s = c) : ∀ x ∈ l.map stageRank, x = c := by
  intro x hx
  rcases List.mem_map.mp hx with ⟨s, hs, rfl⟩
  exact h s hs

theorem chain_ranks_sorted (e : SampleEdits) (d : ℚ) :
    List.Sorted (· ≤ ·) ((build_filter_chain e d).map stageRank) := by
  have ht : ∀ x ∈ (trimStages e d).map stageRank, x = 0 :=
    rank_map_const fun s hs => by
      rcases mem_trimStages_shape hs with ⟨a, b, rfl⟩ | rfl <;> rfl
  have hr : ∀ x ∈ (reverseStages e).map stageRank, x = 1 :=
    rank_map_const fun s hs => by rcases mem_reverseStages_shape hs with rfl; rfl
  have ha : ∀ x ∈ (attackStages e d).map stageRank, x = 2 :=
    rank_map_const fun s hs => by rcases mem_attackStages_shape hs with ⟨x, rfl⟩; rfl
  have hrl : ∀ x ∈ (releaseStages e d).map stageRank, x = 2 :=
    rank_map_const fun s hs => by rcases mem_releaseStages_shape hs with ⟨a, b, rfl⟩; rfl
  have hg : ∀ x ∈ (gainStages e).map stageRank, x = 3 :=
    rank_map_const fun s hs => by rcases mem_gainStages_shape hs with ⟨x, rfl⟩; rfl
  have hh : ∀ x ∈ (hpStages e).map stageRank, x = 4 :=
    rank_map_const fun s hs => by rcases mem_hpStages_shape hs with ⟨f, rfl⟩; rfl
  have hl : ∀ x ∈ (lpStages e).map stageRank, x = 4 :=
    rank_map_const fun s hs => by rcases mem_lpStages_shape hs with ⟨f, rfl⟩; rfl
  have hn : ∀ x ∈ (normStages e).map stageRank, x = 5 :=
    rank_map_const fun s hs => by rcases mem_normStages_shape hs with rfl; rfl
  have s8 : List.Sorted (· ≤ ·) ((normStages e).map stageRank) := sorted_of_const hn
  have s7 := sorted_block_append hl s8 (fun x hx => by rw [hn x hx]; omega)
  have s6 := sorted_block_append hh s7.1 s7.2
  have s5 := sorted_block_append hg s6.1 (fun x hx => by have := s6.2 x hx; omega)
  have s4 := sorted_block_append hrl s5.1 (fun x hx => by have := s5.2 x hx; omega)
  have s3 := sorted_block_append ha s4.1 s4.2
  have s2 := sorted_block_append hr s3.1 (fun x hx => by have := s3.2 x hx; omega)
  have s1 := sorted_block_append ht s2.1 (fun x hx => by have := s2.2 x hx; omega)
  simpa only [build_filter_chain, List.map_append, List.append_assoc] using s1.1

/-! ## Claim C4: fixed stage order and pitch appending -/

/-- C4.  Fixed stage order: for every `EditModel`, duration, and pitch
value, the compiled filter chain lists whichever stages are emitted in
exactly the order trim (with timestamp reset) → reverse → fades → gain →
high-pass/low-pass tone filters → normalize → pitch shift, regardless of
which subset is present; the pitch-shift stage is appended after the edit
chain iff `pitch_semitones != 0`, as a resample-rate factor
`2^(semitones/12)` against the fixed 44100 Hz reference (the
`asetrate 44100 pitch 12` descriptor) followed by a resample back to
44100 Hz. -/
theorem fixed_stage_order (e : SampleEdits) (d : ℚ) (pitch : ℤ) :
    List.Sorted (· ≤ ·) ((combinedChain e d pitch).map stageRank)
    ∧ (pitch ≠ 0 → combinedChain e d pitch =
        build_filter_chain e d ++ [.asetrate 44100 pitch 12, .aresample 44100])
    ∧ (pitch = 0 → combinedChain e d pitch = build_filter_chain e d)
    ∧ (∀ b n m, FilterStage.asetrate b n m ∉ build_filter_chain e d)
    ∧ (∀ r, FilterStage.aresample r ∉ build_filter_chain e d) := by
  have hno_rate : ∀ b n m, FilterStage.asetrate b n m ∉ build_filter_chain e d := by
    intro b n m hmem
    have := chain_rank_le_five _ hmem
    simp [stageRank] at this
  have hno_res : ∀ r, FilterStage.aresample r ∉ build_filter_chain e d := by
    intro r hmem
    have := chain_rank_le_five _ hmem
    simp [stageRank] at this
  have hzero : pitch = 0 → combinedChain e d pitch = build_filter_chain e d := by
    intro h; simp [combinedChain, h]
  have hnz : pitch ≠ 0 → combinedChain e d pitch =
      build_filter_chain e d ++ [.asetrate 44100 pitch 12, .aresample 44100] := by
    intro h; simp [combinedChain, h, pitchStages]
  refine ⟨?_, hnz, hzero, hno_rate, hno_res⟩
  by_cases h : pitch = 0
  · rw [hzero h]; exact chain_ranks_sorted e d
  · rw [hnz h, List.map_append]
    refine List.pairwise_append.mpr ⟨chain_ranks_sorted e d, ?_, ?_⟩
    · simp [stageRank]
    · intro a ha b hb
      rcases List.mem_map.mp ha with ⟨s, hs, rfl⟩
      have h5 := chain_rank_le_five s hs
      simp only [List.map_cons, List.map_nil, List.mem_cons, List.mem_singleton] at hb
      rcases hb with rfl | rfl | hb
      · have h6 : stageRank (FilterStage.asetrate 44100 pitch 12) = 6 := rfl
        rw [h6]; omega
      · have h6 : stageRank (FilterStage.aresample 44100) = 6 := rfl
        rw [h6]; omega
      · simp at hb

/-- Witness for C4 at a concrete model, duration, and pitch. -/
theorem fixed_stage_order_witness :
    ((3:ℤ) ≠ 0 ∧ combinedChain defaultEdits 1000 3 =
      build_filter_chain defaultEdits 1000 ++ [.asetrate 44100 3 12, .aresample 44100])
    ∧ FilterStage.asetrate 44100 3 12 ∉ build_filter_chain defaultEdits 1000 :=
  ⟨⟨by norm_num, (fixed_stage_order defaultEdits 1000 3).2.1 (by norm_num)⟩,
    (fixed_stage_order defaultEdits 1000 3).2.2.2.1 44100 3 12⟩

/-! ## Claim C5: default model, empty chain, direct playback -/

/-- C5.  `is_default()` is true iff every `EditModel` field equals its
zero/identity value (0, false, 20, 20000); for every duration, compiling
a default model yields an empty filter chain (also with pitch 0
included); and whenever the combined chain is empty, `play_with_edits`
plays the original file path directly (it behaves exactly like `play` on
the original path, rendering no transient copy). -/
theorem default_edits_empty_chain :
    (∀ e : SampleEdits, e.is_default = true ↔
      (e.attack_ms = 0 ∧ e.release_ms = 0 ∧ e.gain_db = 0 ∧ e.normalize = false ∧
       e.hp_freq = 20 ∧ e.lp_freq = 20000 ∧ e.reverse = false ∧
       e.trim_start_ms = 0 ∧ e.trim_end_ms = 0))
    ∧ (∀ d : ℚ, build_filter_chain defaultEdits d = [])
    ∧ (∀ d : ℚ, combinedChain defaultEdits d 0 = [])
    ∧ (∀ (w : World) (path : String) (e : SampleEdits) (d : ℚ) (pitch : ℤ)
        (m : StopMode) (rc : ℤ), combinedChain e d pitch = [] →
        Player.play_with_edits w path e d pitch m rc = Player.play w path m) := by
  have hchain : ∀ d : ℚ, build_filter_chain defaultEdits d = [] := by
    intro d
    simp [build_filter_chain, trimStages, reverseStages, attackStages, releaseStages,
      gainStages, hpStages, lpStages, normStages, defaultEdits]
  refine ⟨?_, hchain, ?_, ?_⟩
  · intro e
    cases e
    simp [SampleEdits.is_default, defaultEdits, SampleEdits.mk.injEq]
  · intro d
    simp [combinedChain, hchain d]
  · intro w path e d pitch m rc h
    simp [Player.play_with_edits, h]

/-- Witness for C5 on the default model. -/
theorem default_edits_empty_chain_witness :
    combinedChain defaultEdits 1000 0 = [] ∧
    Player.play_with_edits initWorld "a.wav" defaultEdits 1000 0 .graceful 0 =
      Player.play initWorld "a.wav" .graceful :=
  ⟨default_edits_empty_chain.2.2.1 1000,
    default_edits_empty_chain.2.2.2 initWorld "a.wav" defaultEdits 1000 0 .graceful 0
      (default_edits_empty_chain.2.2.1 1000)⟩

/-! ## Claim C6: trim clamp -/

/-- C6.  For every model with `trim_start_ms > 0 or trim_end_ms > 0` and
every duration, the compiled trim stage's end offset equals
`duration_ms - trim_end_ms`, except that when that value falls before
`trim_start_ms` it is clamped to `trim_start_ms + 50`; with
`duration_ms=1000, trim_start_ms=900, trim_end_ms=300` the compiled end
is 950; when neither trim field is positive no trim stage is emitted. -/
theorem trim_clamp (e : SampleEdits) (d : ℚ) :
    ((0 < e.trim_start_ms ∨ 0 < e.trim_end_ms) →
      ∃ rest, build_filter_chain e d =
        .atrim e.trim_start_ms
          (if d - e.trim_end_ms < e.trim_start_ms then e.trim_start_ms + 50
           else d - e.trim_end_ms) :: .asetpts :: rest)
    ∧ (¬ (0 < e.trim_start_ms ∨ 0 < e.trim_end_ms) →
        ∀ a b, FilterStage.atrim a b ∉ build_filter_chain e d)
    ∧ build_filter_chain { trim_start_ms := 900, trim_end_ms := 300 } 1000 =
        [.atrim 900 950, .asetpts] := by
  refine ⟨?_, ?_, ?_⟩
  · intro h
    refine ⟨reverseStages e ++ attackStages e d ++ releaseStages e d ++
      gainStages e ++ hpStages e ++ lpStages e ++ normStages e, ?_⟩
    simp only [build_filter_chain, trimStages, if_pos h]
    simp [List.append_assoc]
  · intro h a b hmem
    rcases chain_mem_cases hmem with hc | hc | hc | hc | hc | hc | hc | hc
    · unfold trimStages at hc
      rw [if_neg h] at hc
      simp at hc
    · have := mem_reverseStages_shape hc; simp at this
    · rcases mem_attackStages_shape hc with ⟨x, hx⟩; simp at hx
    · rcases mem_releaseStages_shape hc with ⟨u, v, hx⟩; simp at hx
    · rcases mem_gainStages_shape hc with ⟨x, hx⟩; simp at hx
    · rcases mem_hpStages_shape hc with ⟨f, hx⟩; simp at hx
    · rcases mem_lpStages_shape hc with ⟨f, hx⟩; simp at hx
    · have := mem_normStages_shape hc; simp at this
  · norm_num [build_filter_chain, trimStages, reverseStages, attackStages,
      releaseStages, gainStages, hpStages, lpStages, normStages]

/-- Witness for C6 at the spec's own example. -/
theorem trim_clamp_witness :
    (0 < (900:ℚ) ∨ 0 < (300:ℚ)) ∧
    ∃ rest, build_filter_chain { trim_start_ms := 900, trim_end_ms := 300 } 1000 =
      .atrim 900 (if (1000:ℚ) - 300 < 900 then 900 + 50 else 1000 - 300)
        :: .asetpts :: rest :=
  ⟨Or.inl (by norm_num),
    (trim_clamp { trim_start_ms := 900, trim_end_ms := 300 } 1000).1
      (Or.inl (by norm_num))⟩

/-! ## Claim C7: fade clamp -/

/-- Helper: the effective duration the code computes in seconds, scaled
back to milliseconds, is the claim's `max(duration - trims, 50)`. -/
theorem effectiveDur_ms (e : SampleEdits) (d : ℚ) :
    1000 * effectiveDurS e d = max (d - e.trim_start_ms - e.trim_end_ms) 50 := by
  unfold effectiveDurS
  rw [mul_max_of_nonneg _ _ (by norm_num : (0:ℚ) ≤ 1000)]
  congr 1
  · ring
  · norm_num

/-- C7.  The effective duration used for fades equals
`duration_ms - trim_start_ms - trim_end_ms` floored at 50 ms; the
compiled attack fade length equals `min(attack_ms, 0.9 * effective)` and
the release fade length equals `min(release_ms, 0.9 * effective)` with
release start offset `max(effective - release_length, 0)` (all stated in
milliseconds; the compiled stages carry seconds, hence the factor 1000);
each fade is emitted iff its configured length is positive; with
effective duration 1000 ms and `attack_ms=5000` the compiled attack
length is 900 ms. -/
theorem fade_clamp (e : SampleEdits) (d : ℚ) :
    (1000 * effectiveDurS e d = max (d - e.trim_start_ms - e.trim_end_ms) 50)
    ∧ (0 < e.attack_ms →
        FilterStage.afadeIn (min (e.attack_ms / 1000) (effectiveDurS e d * (9/10)))
          ∈ build_filter_chain e d
        ∧ 1000 * min (e.attack_ms / 1000) (effectiveDurS e d * (9/10))
            = min e.attack_ms ((9/10) * max (d - e.trim_start_ms - e.trim_end_ms) 50))
    ∧ (¬ 0 < e.attack_ms → ∀ x, FilterStage.afadeIn x ∉ build_filter_chain e d)
    ∧ (0 < e.release_ms →
        (let rs := min (e.release_ms / 1000) (effectiveDurS e d * (9/10))
         FilterStage.afadeOut (max (effectiveDurS e d - rs) 0) rs
           ∈ build_filter_chain e d
         ∧ 1000 * rs
             = min e.release_ms ((9/10) * max (d - e.trim_start_ms - e.trim_end_ms) 50)
         ∧ 1000 * max (effectiveDurS e d - rs) 0
             = max (max (d - e.trim_start_ms - e.trim_end_ms) 50 - 1000 * rs) 0))
    ∧ (¬ 0 < e.release_ms → ∀ a b, FilterStage.afadeOut a b ∉ build_filter_chain e d)
    ∧ (build_filter_chain { attack_ms := 5000 } 1000 = [.afadeIn (9/10)]
        ∧ (1000 : ℚ) * (9/10) = 900) := by
  have hms := effectiveDur_ms e d
  have hlen : ∀ a : ℚ, 1000 * min (a / 1000) (effectiveDurS e d * (9/10))
      = min a ((9/10) * max (d - e.trim_start_ms - e.trim_end_ms) 50) := by
    intro a
    rw [mul_min_of_nonneg _ _ (by norm_num : (0:ℚ) ≤ 1000)]
    congr 1
    · ring
    · rw [show (1000:ℚ) * (effectiveDurS e d * (9/10))
          = (9/10) * (1000 * effectiveDurS e d) from by ring, hms]
  refine ⟨hms, ?_, ?_, ?_, ?_, ?_⟩
  · intro h
    constructor
    · simp [build_filter_chain, attackStages, h]
    · exact hlen e.attack_ms
  · intro h x hmem
    rcases chain_mem_cases hmem with hc | hc | hc | hc | hc | hc | hc | hc
    · rcases mem_trimStages_shape hc with ⟨a, b, hx⟩ | hx <;> simp at hx
    · have := mem_reverseStages_shape hc; simp at this
    · unfold attackStages at hc
      rw [if_neg h] at hc
      simp at hc
    · rcases mem_releaseStages_shape hc with ⟨u, v, hx⟩; simp at hx
    · rcases mem_gainStages_shape hc with ⟨y, hx⟩; simp at hx
    · rcases mem_hpStages_shape hc with ⟨f, hx⟩; simp at hx
    · rcases mem_lpStages_shape hc with ⟨f, hx⟩; simp at hx
    · have := mem_normStages_shape hc; simp at this
  · intro h
    refine ⟨?_, hlen e.release_ms, ?_⟩
    · simp [build_filter_chain, releaseStages, h]
    · rw [mul_max_of_nonneg _ _ (by norm_num : (0:ℚ) ≤ 1000)]
      congr 1
      · rw [show (1000:ℚ) * (effectiveDurS e d
            - min (e.release_ms / 1000) (effectiveDurS e d * (9/10)))
            = 1000 * effectiveDurS e d
              - 1000 * min (e.release_ms / 1000) (effectiveDurS e d * (9/10)) from by
          ring, hms]
      · norm_num
  · intro h a b hmem
    rcases chain_mem_cases hmem with hc | hc | hc | hc | hc | hc | hc | hc
    · rcases mem_trimStages_shape hc with ⟨u, v, hx⟩ | hx <;> simp at hx
    · have := mem_reverseStages_shape hc; simp at this
    · rcases mem_attackStages_shape hc with ⟨x, hx⟩; simp at hx
    · unfold releaseStages at hc
      rw [if_neg h] at hc
      simp at hc
    · rcases mem_gainStages_shape hc with ⟨y, hx⟩; simp at hx
    · rcases mem_hpStages_shape hc with ⟨f, hx⟩; simp at hx
    · rcases mem_lpStages_shape hc with ⟨f, hx⟩; simp at hx
    · have := mem_normStages_shape hc; simp at this
  · constructor
    · norm_num [build_filter_chain, trimStages, reverseStages, attackStages,
        releaseStages, gainStages, hpStages, lpStages, normStages, effectiveDurS]
    · norm_num

/-- Witness for C7 at the spec's own example. -/
theorem fade_clamp_witness :
    (0 < (5000:ℚ)) ∧
    (FilterStage.afadeIn
        (min ((5000:ℚ) / 1000) (effectiveDurS { attack_ms := 5000 } 1000 * (9/10)))
      ∈ build_filter_chain { attack_ms := 5000 } 1000
    ∧ 1000 * min ((5000:ℚ) / 1000) (effectiveDurS { attack_ms := 5000 } 1000 * (9/10))
        = min (5000:ℚ) ((9/10) * max ((1000:ℚ) - 0 - 0) 50)) :=
  ⟨by norm_num, (fade_clamp { attack_ms := 5000 } 1000).2.1 (by norm_num)⟩


/-! ## Helper lemmas: playback controller state machine -/

theorem is_playing_iff (s : PlayerState) :
    s.is_playing = true ↔ ∃ p, s.process = some p ∧ p.returncode = none := by
  unfold PlayerState.is_playing
  cases hp : s.process <;> simp [hp]

theorem stop_player_idle (w : World) (m : StopMode) :
    (Player.stop w m).player =
      { process := none, current_file := none, temp_files := [] } := rfl

theorem stop_nextPid (w : World) (m : StopMode) :
    (Player.stop w m).nextPid = w.nextPid := rfl

theorem stop_live_nil {w : World} (m : StopMode) (h : LiveInv w) :
    (Player.stop w m).live = [] := by
  unfold LiveInv livePidsOf at h
  unfold Player.stop
  cases hp : w.player.process with
  | none =>
    rw [hp] at h
    simp at h
    simp [hp, h]
  | some p =>
    rw [hp] at h
    simp only [] at h
    by_cases hr : p.returncode = none
    · rw [if_pos hr] at h
      simp [hp, hr, h]
    · rw [if_neg hr] at h
      simp [hp, hr, h]

theorem stop_inv {w : World} (m : StopMode) (h : LiveInv w) :
    LiveInv (Player.stop w m) := by
  unfold LiveInv
  rw [stop_live_nil m h]
  rfl

theorem play_player (w : World) (p : String) (m : StopMode) :
    (Player.play w p m).player =
      { process := some { pid := w.nextPid, returncode := none }
        current_file := some p
        temp_files := [] } := rfl

theorem play_live {w : World} (p : String) (m : StopMode) (h : LiveInv w) :
    (Player.play w p m).live = [w.nextPid] := by
  unfold Player.play
  simp [stop_live_nil m h, stop_nextPid]

theorem play_inv {w : World} (p : String) (m : StopMode) (h : LiveInv w) :
    LiveInv (Player.play w p m) := by
  unfold LiveInv
  rw [play_live p m h, play_player]
  rfl

theorem renderToTmp_live (w : World) (src : String) (rc : ℤ) :
    (Player.renderToTmp w src rc).live = w.live := rfl

theorem renderAfterStop_inv {w : World} (src : String) (m : StopMode) (rc : ℤ)
    (h : LiveInv w) : LiveInv (Player.renderToTmp (Player.stop w m) src rc) := by
  unfold LiveInv
  rw [renderToTmp_live, stop_live_nil m h]
  rfl

theorem play_pitched_inv {w : World} (path : String) (s : ℤ) (m : StopMode)
    (rc : ℤ) (h : LiveInv w) : LiveInv (Player.play_pitched w path s m rc) := by
  unfold Player.play_pitched
  by_cases hs : s = 0
  · rw [if_pos hs]
    exact play_inv path m h
  · rw [if_neg hs]
    by_cases hrc : rc = 0
    · rw [if_pos hrc]
      exact play_inv _ m (renderAfterStop_inv path m rc h)
    · rw [if_neg hrc]
      exact renderAfterStop_inv path m rc h

theorem play_with_edits_inv {w : World} (path : String) (e : SampleEdits)
    (d : ℚ) (pitch : ℤ) (m : StopMode) (rc : ℤ) (h : LiveInv w) :
    LiveInv (Player.play_with_edits w path e d pitch m rc) := by
  unfold Player.play_with_edits
  by_cases hc : combinedChain e d pitch = []
  · rw [if_pos hc]
    exact play_inv path m h
  · rw [if_neg hc]
    by_cases hrc : rc = 0
    · rw [if_pos hrc]
      exact play_inv _ m (renderAfterStop_inv path m rc h)
    · rw [if_neg hrc]
      exact renderAfterStop_inv path m rc h

theorem procExitStep_inv {w : World} (h : LiveInv w) : LiveInv (procExitStep w) := by
  unfold LiveInv livePidsOf at h ⊢
  unfold procExitStep
  cases hp : w.player.process with
  | none => rw [hp] at h; simpa [hp] using h
  | some pr =>
    rw [hp] at h
    simp only [] at h
    by_cases hr : pr.returncode = none
    · rw [if_pos hr] at h
      simp [hr, h]
    · rw [if_neg hr] at h
      simp [hp, hr, h]

theorem step_inv {w : World} (c : Cmd) (h : LiveInv w) : LiveInv (step w c) := by
  cases c with
  | play p m => exact play_inv p m h
  | play_pitched p s m rc => exact play_pitched_inv p s m rc h
  | play_with_edits p e d pi m rc => exact play_with_edits_inv p e d pi m rc h
  | stop m => exact stop_inv m h
  | procExit => exact procExitStep_inv h

theorem initWorld_inv : LiveInv initWorld := rfl

theorem run_inv (cmds : List Cmd) : ∀ w : World, LiveInv w → LiveInv (run w cmds) := by
  induction cmds with
  | nil => intro w h; exact h
  | cons c cs ih =>
    intro w h
    exact ih (step w c) (step_inv c h)

theorem liveInv_length {w : World} (h : LiveInv w) : w.live.length ≤ 1 := by
  unfold LiveInv livePidsOf at h
  rw [h]
  split
  · split <;> simp
  · simp

theorem play_trace (w : World) (B : String) (m : StopMode) :
    (Player.play w B m).trace
      = (w.trace ++ stopEvents w.player m) ++ [Event.spawnPlay w.nextPid B] := rfl

theorem stopEvents_playing {s : PlayerState} {p : Proc} (hp : s.process = some p)
    (hr : p.returncode = none) (m : StopMode) :
    stopEvents s m = stopProcEvents m p.pid ++ s.temp_files.map Event.deleteFile := by
  simp [stopEvents, hp, hr]

/-! ## Claim C1: playback exclusivity -/

/-- C1.  For every sequence of `play` / `play_pitched` / `play_with_edits`
/ `stop` calls on a `Player` (with arbitrary environment outcomes,
including spontaneous process exits), at most one playback process is
live at any time; and calling `play(B)` while some process A is playing
first performs the full stop sequence on A — the terminate/kill ladder on
A's pid followed by deletion of every transient file registered for A —
before spawning B, after which exactly one process (B's fresh pid) is
live and the registered transient-file list is empty. -/
theorem playback_exclusivity (cmds : List Cmd) :
    (run initWorld cmds).live.length ≤ 1
    ∧ (∀ (B : String) (m : StopMode),
        (run initWorld cmds).player.is_playing = true →
        ∃ p, (run initWorld cmds).player.process = some p
          ∧ (Player.play (run initWorld cmds) B m).live
              = [(run initWorld cmds).nextPid]
          ∧ (Player.play (run initWorld cmds) B m).player.temp_files = []
          ∧ (Player.play (run initWorld cmds) B m).trace
              = (run initWorld cmds).trace
                ++ stopProcEvents m p.pid
                ++ ((run initWorld cmds).player.temp_files.map Event.deleteFile)
                ++ [Event.spawnPlay (run initWorld cmds).nextPid B]) := by
  have hInv : LiveInv (run initWorld cmds) := run_inv cmds initWorld initWorld_inv
  refine ⟨liveInv_length hInv, ?_⟩
  intro B m hplay
  rcases (is_playing_iff _).mp hplay with ⟨p, hp, hr⟩
  refine ⟨p, hp, play_live B m hInv, by rw [play_player], ?_⟩
  rw [play_trace, stopEvents_playing hp hr m]
  simp [List.append_assoc]

/-- Witness for C1: after `play("a.wav")`, a second `play("b.wav")` stops
the first process and leaves exactly the new one live. -/
theorem playback_exclusivity_witness :
    (run initWorld [Cmd.play "a.wav" StopMode.graceful]).player.is_playing = true
    ∧ ∃ p, (run initWorld [Cmd.play "a.wav" StopMode.graceful]).player.process = some p
      ∧ (Player.play (run initWorld [Cmd.play "a.wav" StopMode.graceful])
            "b.wav" StopMode.graceful).live
          = [(run initWorld [Cmd.play "a.wav" StopMode.graceful]).nextPid]
      ∧ (Player.play (run initWorld [Cmd.play "a.wav" StopMode.graceful])
            "b.wav" StopMode.graceful).player.temp_files = []
      ∧ (Player.play (run initWorld [Cmd.play "a.wav" StopMode.graceful])
            "b.wav" StopMode.graceful).trace
          = (run initWorld [Cmd.play "a.wav" StopMode.graceful]).trace
            ++ stopProcEvents StopMode.graceful p.pid
            ++ ((run initWorld [Cmd.play "a.wav" StopMode.graceful]).player.temp_files.map
                  Event.deleteFile)
            ++ [Event.spawnPlay
                  (run initWorld [Cmd.play "a.wav" StopMode.graceful]).nextPid "b.wav"] :=
  ⟨by decide,
    (playback_exclusivity [Cmd.play "a.wav" StopMode.graceful]).2 "b.wav"
      StopMode.graceful (by decide)⟩

/-! ## Claim C2: transient files deleted only after confirmed exit -/

/-- C2.  In every execution of `stop()` on a live process (any
termination outcome: graceful terminate-and-wait, process already gone,
or 1 s timeout followed by force-kill), the event sequence is exactly the
terminate/kill ladder on the live pid — which starts with `terminate`,
contains no file deletion, and ends with the process confirmed gone —
followed by the deletion of the registered transient files; so no
transient file is ever deleted before the process's exit is confirmed. -/
theorem stop_deletes_after_confirmed_exit (s : PlayerState) (m : StopMode)
    (p : Proc) (hp : s.process = some p) (hr : p.returncode = none) :
    stopEvents s m = stopProcEvents m p.pid ++ s.temp_files.map Event.deleteFile
    ∧ (stopProcEvents m p.pid).head? = some (Event.terminate p.pid)
    ∧ (stopProcEvents m p.pid).getLast? = some (Event.exitConfirmed p.pid)
    ∧ (∀ ev ∈ stopProcEvents m p.pid,
        ev = Event.terminate p.pid ∨ ev = Event.kill p.pid
        ∨ ev = Event.exitConfirmed p.pid) := by
  refine ⟨stopEvents_playing hp hr m, ?_, ?_, ?_⟩
  · cases m <;> rfl
  · cases m <;> rfl
  · intro ev hev
    cases m <;> simp [stopProcEvents] at hev <;> tauto

/-- Witness for C2 on a concrete live state with two registered files. -/
theorem stop_deletes_after_confirmed_exit_witness :
    stopEvents
        { process := some { pid := 7, returncode := none }
          current_file := some "x.wav"
          temp_files := ["t1.wav", "t2.wav"] } StopMode.timeoutKill
      = stopProcEvents StopMode.timeoutKill 7
        ++ (["t1.wav", "t2.wav"].map Event.deleteFile)
    ∧ (stopProcEvents StopMode.timeoutKill 7).head? = some (Event.terminate 7)
    ∧ (stopProcEvents StopMode.timeoutKill 7).getLast? = some (Event.exitConfirmed 7)
    ∧ (∀ ev ∈ stopProcEvents StopMode.timeoutKill 7,
        ev = Event.terminate 7 ∨ ev = Event.kill 7 ∨ ev = Event.exitConfirmed 7) :=
  stop_deletes_after_confirmed_exit
    { process := some { pid := 7, returncode := none }
      current_file := some "x.wav"
      temp_files := ["t1.wav", "t2.wav"] } StopMode.timeoutKill
    { pid := 7, returncode := none } rfl rfl

/-! ## Claim C3: render failure is non-fatal and leaves the controller Idle -/

/-- C3.  For every `play_pitched(path, semitones)` with `semitones != 0`
and every `play_with_edits` with a non-empty compiled chain, if the
render exits non-zero then no playback is started (the trace gains only
the stop events and the render spawn/exit — no `spawnPlay`), the
controller holds no process afterwards, and `is_playing` is false.  The
operations are total functions of the oracle outcomes, so no exception
reaches the caller. -/
theorem render_failure_nonfatal :
    (∀ (w : World) (path : String) (s : ℤ) (m : StopMode) (rc : ℤ),
      s ≠ 0 → rc ≠ 0 →
      (Player.play_pitched w path s m rc).player.process = none
      ∧ (Player.play_pitched w path s m rc).player.is_playing = false
      ∧ (Player.play_pitched w path s m rc).trace
          = (w.trace ++ stopEvents w.player m)
            ++ [Event.spawnRender w.nextPid path (tmpWavName w.nextTmp),
                Event.renderExit w.nextPid rc])
    ∧ (∀ (w : World) (path : String) (e : SampleEdits) (d : ℚ) (pitch : ℤ)
        (m : StopMode) (rc : ℤ),
        combinedChain e d pitch ≠ [] → rc ≠ 0 →
        (Player.play_with_edits w path e d pitch m rc).player.process = none
        ∧ (Player.play_with_edits w path e d pitch m rc).player.is_playing = false
        ∧ (Player.play_with_edits w path e d pitch m rc).trace
            = (w.trace ++ stopEvents w.player m)
              ++ [Event.spawnRender w.nextPid path (tmpWavName w.nextTmp),
                  Event.renderExit w.nextPid rc]) := by
  constructor
  · intro w path s m rc hs hrc
    unfold Player.play_pitched
    rw [if_neg hs, if_neg hrc]
    exact ⟨rfl, rfl, rfl⟩
  · intro w path e d pitch m rc hc hrc
    unfold Player.play_with_edits
    rw [if_neg hc, if_neg hrc]
    exact ⟨rfl, rfl, rfl⟩

/-- Witness for C3: a failed pitch render (exit code 1) from the initial
state leaves the controller Idle. -/
theorem render_failure_nonfatal_witness :
    (Player.play_pitched initWorld "x.wav" 3 StopMode.graceful 1).player.process = none
    ∧ (Player.play_pitched initWorld "x.wav" 3 StopMode.graceful 1).player.is_playing = false
    ∧ (Player.play_pitched initWorld "x.wav" 3 StopMode.graceful 1).trace
        = (initWorld.trace ++ stopEvents initWorld.player StopMode.graceful)
          ++ [Event.spawnRender initWorld.nextPid "x.wav" (tmpWavName initWorld.nextTmp),
              Event.renderExit initWorld.nextPid 1] :=
  render_failure_nonfatal.1 initWorld "x.wav" 3 StopMode.graceful 1
    (by decide) (by decide)

/-! ## Helper lemmas: waveform extraction -/

theorem foldl_max_init_le (l : List ℤ) (a : ℤ) : a ≤ l.foldl max a := by
  induction l generalizing a with
  | nil => exact le_refl a
  | cons x t ih =>
    calc a ≤ max a x := le_max_left a x
    _ ≤ t.foldl max (max a x) := ih (max a x)

theorem mem_le_foldl_max (l : List ℤ) (a : ℤ) : ∀ x ∈ l, x ≤ l.foldl max a := by
  induction l generalizing a with
  | nil => intro x hx; simp at hx
  | cons y t ih =>
    intro x hx
    rcases List.mem_cons.mp hx with rfl | hx
    · calc x ≤ max a x := le_max_right a x
      _ ≤ t.foldl max (max a x) := foldl_max_init_le t (max a x)
    · exact ih (max a y) x hx

theorem foldl_max_of_le {l : List ℤ} {a : ℤ} (h : ∀ x ∈ l, x ≤ a) :
    l.foldl max a = a := by
  induction l with
  | nil => rfl
  | cons x t ih =>
    have hx : max a x = a := max_eq_left (h x (List.mem_cons_self x t))
    show t.foldl max (max a x) = a
    rw [hx]
    exact ih fun y hy => h y (List.mem_cons_of_mem _ hy)

theorem chunkPeak_nonneg (l : List ℤ) : 0 ≤ chunkPeak l := by
  unfold chunkPeak
  split
  · exact le_refl 0
  · exact foldl_max_init_le _ 0

theorem take_min_length {α : Type} (l : List α) (a : ℕ) :
    l.take (min a l.length) = l.take a := by
  rcases le_total a l.length with h | h
  · rw [min_eq_left h]
  · rw [min_eq_right h, List.take_length, List.take_of_length_le h]

theorem binPeaks_eq_specPeaks (samples : List ℤ) (bins : ℕ) :
    binPeaks samples bins = (List.range bins).map (specPeak samples bins) := by
  unfold binPeaks specPeak specWindow
  refine List.map_congr_left fun i hi => ?_
  set n := samples.length with hn
  set w := max 1 (n / bins) with hw
  by_cases hs : n ≤ i * w
  · rw [if_pos hs]
    rw [List.drop_eq_nil_of_le (by omega : samples.length ≤ i * w)]
    simp [chunkPeak]
  · rw [if_neg hs]
    congr 1
    have hlen : (samples.drop (i * w)).length = n - i * w := by
      rw [List.length_drop]
    have harith : min (i * w + w) n - i * w = min w (n - i * w) := by omega
    rw [harith, ← hlen, take_min_length]

theorem specPeak_nonneg (samples : List ℤ) (bins : ℕ) (i : ℕ) :
    0 ≤ specPeak samples bins i := chunkPeak_nonneg _

theorem specPeak_le_specMx (samples : List ℤ) (bins : ℕ) {i : ℕ} (hi : i < bins) :
    specPeak samples bins i ≤ specMx samples bins := by
  unfold specMx
  exact mem_le_foldl_max _ 0 _ (List.mem_map_of_mem _ (List.mem_range.mpr hi))

theorem specMx_nonneg (samples : List ℤ) (bins : ℕ) : 0 ≤ specMx samples bins :=
  foldl_max_init_le _ 0

theorem normalize_spec (samples : List ℤ) (bins : ℕ) :
    normalizePeaks ((List.range bins).map (specPeak samples bins))
      = (List.range bins).map (fun i =>
          if 0 < specMx samples bins
          then (specPeak samples bins i : ℚ) / specMx samples bins
          else 0) := by
  unfold normalizePeaks
  by_cases hmx : 0 < specMx samples bins
  · rw [if_pos (show 0 < ((List.range bins).map (specPeak samples bins)).foldl max 0
        from hmx)]
    rw [List.map_map]
    refine List.map_congr_left fun i _ => ?_
    simp only [Function.comp]
    rw [if_pos hmx]
    rfl
  · rw [if_neg (show ¬ 0 < ((List.range bins).map (specPeak samples bins)).foldl max 0
        from hmx)]
    rw [List.map_map]
    refine List.map_congr_left fun i hi => ?_
    have h0 : specPeak samples bins i = 0 := by
      have h1 := specPeak_le_specMx samples bins (List.mem_range.mp hi)
      have h2 := specPeak_nonneg samples bins i
      have h3 := specMx_nonneg samples bins
      omega
    simp [Function.comp, hmx, h0]

theorem get_waveform_eq_spec (samples : List ℤ) (bins : ℕ) :
    get_waveform samples bins
      = (List.range bins).map (fun i =>
          if 0 < specMx samples bins
          then (specPeak samples bins i : ℚ) / specMx samples bins
          else 0) := by
  unfold get_waveform
  by_cases hlen : samples.length = 0
  · rw [if_pos hlen]
    have hnil : samples = [] := List.length_eq_zero.mp hlen
    subst hnil
    have hpk : ∀ i : ℕ, specPeak [] bins i = 0 := by
      intro i
      unfold specPeak
      simp [chunkPeak]
    have hmx : specMx [] bins = 0 := by
      unfold specMx
      refine foldl_max_of_le fun x hx => ?_
      rcases List.mem_map.mp hx with ⟨i, _, rfl⟩
      rw [hpk i]
    rw [show (List.range bins).map (fun i =>
        if 0 < specMx [] bins then (specPeak [] bins i : ℚ) / specMx [] bins else 0)
      = (List.range bins).map (fun _ => (0:ℚ)) from
        List.map_congr_left fun i _ => by rw [hmx]; simp]
    rw [List.map_const', List.length_range]
  · rw [if_neg hlen, binPeaks_eq_specPeaks, normalize_spec]

/-! ## Claim C8: waveform envelope postcondition -/

/-- C8 (amended).  For every decoded sample stream and every
`bin_count ≥ 1` (the source raises `ZeroDivisionError` at 0), extraction
returns exactly `bin_count` values; each value is the maximum absolute
sample magnitude over its contiguous window of size
`max(1, floor(total_samples / bin_count))` (clamped to the stream end; a
window with no samples yields 0), normalized by the global maximum across
bins, so every value lies in [0,1]; when the global maximum is 0 all bins
remain 0 rather than dividing by zero; and raw bin values `[4, 8, 2, 0]`
normalize to `[0.5, 1.0, 0.25, 0.0]`. -/
theorem waveform_envelope (samples : List ℤ) (bins : ℕ) (_hb : 0 < bins) :
    (get_waveform samples bins).length = bins
    ∧ get_waveform samples bins
        = (List.range bins).map (fun i =>
            if 0 < specMx samples bins
            then (specPeak samples bins i : ℚ) / specMx samples bins
            else 0)
    ∧ (∀ q ∈ get_waveform samples bins, 0 ≤ q ∧ q ≤ 1)
    ∧ (specMx samples bins = 0 → get_waveform samples bins = List.replicate bins 0)
    ∧ get_waveform [4, 8, 2, 0] 4 = [1/2, 1, 1/4, 0] := by
  have hspec := get_waveform_eq_spec samples bins
  refine ⟨by rw [hspec]; simp, hspec, ?_, ?_, ?_⟩
  · intro q hq
    rw [hspec] at hq
    rcases List.mem_map.mp hq with ⟨i, hi, rfl⟩
    by_cases hmx : 0 < specMx samples bins
    · rw [if_pos hmx]
      constructor
      · exact div_nonneg (by exact_mod_cast specPeak_nonneg samples bins i)
          (by exact_mod_cast hmx.le)
      · rw [div_le_one (by exact_mod_cast hmx)]
        exact_mod_cast specPeak_le_specMx samples bins (List.mem_range.mp hi)
    · rw [if_neg hmx]
      norm_num
  · intro h0
    rw [hspec]
    have hmid : (List.range bins).map (fun i =>
        if 0 < specMx samples bins
        then (specPeak samples bins i : ℚ) / specMx samples bins else 0)
        = (List.range bins).map (fun _ => (0:ℚ)) := by
      refine List.map_congr_left fun i _ => ?_
      rw [h0]
      simp
    rw [hmid, List.map_const', List.length_range]
  · have hbp : binPeaks [4, 8, 2, 0] 4 = [4, 8, 2, 0] := by decide
    have hmx : ((binPeaks [4, 8, 2, 0] 4).foldl max 0 : ℤ) = 8 := by decide
    simp [get_waveform, normalizePeaks, hbp, hmx]
    norm_num

/-- Witness for C8 at the spec's own normalization example. -/
theorem waveform_envelope_witness :
    (0:ℕ) < 4 ∧ (get_waveform [4, 8, 2, 0] 4).length = 4
    ∧ get_waveform [4, 8, 2, 0] 4 = [1/2, 1, 1/4, 0] :=
  ⟨by decide, (waveform_envelope [4, 8, 2, 0] 4 (by decide)).1,
    (waveform_envelope [4, 8, 2, 0] 4 (by decide)).2.2.2.2⟩

/-- Counterexample to C8 as stated: with 1 sample and 2 bins the claim's
window size is `floor(1/2) = 0`, so every window is empty and the claimed
output is `[0, 0]`; the code clamps the window size to 1 and returns
`[1, 0]`. -/
theorem waveform_claim_counterexample :
    get_waveform [5] 2 = [1, 0]
    ∧ waveformClaimSpec [5] 2 = [0, 0]
    ∧ get_waveform [5] 2 ≠ waveformClaimSpec [5] 2 := by
  have hcode : get_waveform [5] 2 = [1, 0] := by
    have hbp : binPeaks [5] 2 = [5, 0] := by decide
    have hmx : ((binPeaks [5] 2).foldl max 0 : ℤ) = 5 := by decide
    simp [get_waveform, normalizePeaks, hbp, hmx]
  have hclaim : waveformClaimSpec [5] 2 = [0, 0] := by decide
  refine ⟨hcode, hclaim, ?_⟩
  rw [hcode, hclaim]
  simp

/-! ## Helper lemmas: filename classification -/

theorem isDigit_toNat {c : Char} (h : c.isDigit = true) :
    48 ≤ c.val.toNat ∧ c.val.toNat ≤ 57 := by
  simp only [Char.isDigit, Bool.and_eq_true, decide_eq_true_iff] at h
  exact ⟨@UInt32.le_toNat_of_le c.val 48 (by decide) h.1,
    @UInt32.toNat_le_of_le c.val 57 (by decide) h.2⟩

theorem digit_not_alpha {c : Char} (h : c.isDigit = true) : c.isAlpha = false := by
  have hn := isDigit_toNat h
  unfold Char.isAlpha
  have hu : c.isUpper = false := by
    by_contra hup
    rw [Bool.not_eq_false] at hup
    simp only [Char.isUpper, Bool.and_eq_true, decide_eq_true_iff] at hup
    have h2 := @UInt32.le_toNat_of_le c.val 65 (by decide) hup.1
    omega
  have hl : c.isLower = false := by
    by_contra hlo
    rw [Bool.not_eq_false] at hlo
    simp only [Char.isLower, Bool.and_eq_true, decide_eq_true_iff] at hlo
    have h2 := @UInt32.le_toNat_of_le c.val 97 (by decide) hlo.1
    omega
  rw [hu, hl]
  rfl

theorem digit_toLower {c : Char} (h : c.isDigit = true) : c.toLower = c := by
  have hn := isDigit_toNat h
  unfold Char.toLower
  rw [if_neg]
  intro hc
  rcases hc with ⟨h1, _⟩
  unfold Char.toNat at h1
  omega

theorem drum_match_head {l : List Char} {note : ℕ} {rest : List Char}
    (h : drum_match l = some (note, rest)) :
    ∃ c cs, l = c :: cs ∧ c.isDigit = true := by
  unfold drum_match at h
  cases l with
  | nil => simp at h
  | cons c cs =>
    refine ⟨c, cs, rfl, ?_⟩
    by_contra hd
    rw [Bool.not_eq_true] at hd
    rw [List.takeWhile_cons, hd] at h
    simp at h

theorem inst_match_none_of_digit {c : Char} {cs : List Char}
    (hd : c.isDigit = true) : inst_match (c :: cs) = none := by
  unfold inst_match
  rw [List.takeWhile_cons, digit_not_alpha hd]
  simp

theorem lowerStr_data (s : String) : (lowerStr s).data = s.data.map Char.toLower := rfl

theorem bare_none_of_digit {name : String} {c : Char} {cs : List Char}
    (hdata : name.data = c :: cs) (hd : c.isDigit = true) :
    ALL_INSTRUMENTS.find? (fun i => lowerStr name = lowerStr i) = none := by
  rw [List.find?_eq_none]
  intro inst hmem
  simp only [decide_eq_true_iff]
  intro heq
  have hall : ALL_INSTRUMENTS.all (fun i =>
      match (lowerStr i).data with
      | h :: _ => !h.isDigit
      | [] => false) = true := by decide
  have hinst := List.all_eq_true.mp hall inst hmem
  have hdat : (lowerStr inst).data = Char.toLower c :: cs.map Char.toLower := by
    rw [← heq, lowerStr_data, hdata, List.map_cons]
  rw [hdat] at hinst
  simp only [Bool.not_eq_true'] at hinst
  rw [digit_toLower hd] at hinst
  rw [hd] at hinst
  simp at hinst

/-! ## Claim C9: catalog classification precedence -/

/-- Counterexample to C9 as stated: the note→instrument table
`DRUM_NOTE_MAP` has 11 entries (36, 37, 38, 39, 42, 44, 46, 49, 51, 56,
75), not the 12 the claim asserts. -/
theorem drum_note_map_not_twelve :
    DRUM_NOTE_MAP.length = 11 ∧ DRUM_NOTE_MAP.length ≠ 12 := by decide

/-- C9 (amended).  The three patterns are tried in order with first match
winning: (1) a filename beginning with an integer MIDI note followed by
`-` is looked up in the fixed 11-entry note→instrument table and
classified with that instrument and `midi_note` set, and is skipped when
the note has no mapping; (2) otherwise a filename of the form
`<name>-v<digits>` with `<name>` in the fixed 18-instrument enumeration
classifies as that instrument with the parsed variant number; (3)
otherwise a bare filename case-insensitively equal to an instrument name
classifies as that instrument with no variant.  `"36-kick.wav"` yields
kick with `midi_note=36`, `"bass-v2.wav"` yields bass with variant 2,
`"99-unknown.wav"` is skipped, and `"snare.wav"` yields snare. -/
theorem catalog_classification :
    (∀ (path : String) (note : ℕ) (rest : List Char),
      drum_match ((splitExt path).1).data = some (note, rest) →
      (∀ inst, List.lookup note DRUM_NOTE_MAP = some inst →
        parse_file path = some { filename := path, instrument := inst
                                 midi_note := some note })
      ∧ (List.lookup note DRUM_NOTE_MAP = none → parse_file path = none))
    ∧ (∀ (path inst : String) (v : ℕ),
        drum_match ((splitExt path).1).data = none →
        inst_match ((splitExt path).1).data = some (inst, v) →
        inst ∈ ALL_INSTRUMENTS →
        parse_file path = some { filename := path, instrument := inst
                                 variant_num := some v })
    ∧ (∀ (path inst : String),
        drum_match ((splitExt path).1).data = none →
        inst_match ((splitExt path).1).data = none →
        ALL_INSTRUMENTS.find? (fun i => lowerStr (splitExt path).1 = lowerStr i)
          = some inst →
        parse_file path = some { filename := path, instrument := inst })
    ∧ (DRUM_NOTE_MAP.length = 11 ∧ ALL_INSTRUMENTS.length = 18)
    ∧ (parse_file "36-kick.wav"
        = some { filename := "36-kick.wav", instrument := "kick", midi_note := some 36 }
      ∧ parse_file "bass-v2.wav"
        = some { filename := "bass-v2.wav", instrument := "bass", variant_num := some 2 }
      ∧ parse_file "99-unknown.wav" = none
      ∧ parse_file "snare.wav"
        = some { filename := "snare.wav", instrument := "snare" }) := by
  refine ⟨?_, ?_, ?_, by decide, by decide, by decide, by decide, by decide⟩
  · intro path note rest hdm
    constructor
    · intro inst hlk
      simp [parse_file, hdm, hlk]
    · intro hlk
      rcases drum_match_head hdm with ⟨c, cs, hdata, hd⟩
      have him : inst_match ((splitExt path).1).data = none := by
        rw [hdata]; exact inst_match_none_of_digit hd
      have hbare := bare_none_of_digit hdata hd
      simp [parse_file, hdm, hlk, him, hbare]
  · intro path inst v hdm him hmem
    simp [parse_file, hdm, him, hmem]
  · intro path inst hdm him hfind
    simp [parse_file, hdm, him, hfind]

/-- Witness for C9: the drum-note branch applied to `"42-tick.wav"`. -/
theorem catalog_classification_witness :
    parse_file "42-tick.wav"
      = some { filename := "42-tick.wav", instrument := "hihat", midi_note := some 42 } :=
  (catalog_classification.1 "42-tick.wav" 42 "tick".data (by decide)).1 "hihat" (by decide)

/-! ## Helper lemmas: scan bucket structure -/

theorem addSample_keys (res : List (String × List SampleFile)) (s : SampleFile) :
    (addSample res s).map Prod.fst = res.map Prod.fst := by
  unfold addSample
  rw [List.map_map]
  refine List.map_congr_left fun p _ => ?_
  by_cases hp : p.1 = s.instrument <;> simp [hp]

theorem scanStep_keys (res : List (String × List SampleFile)) (f : String) :
    (scanStep res f).map Prod.fst = res.map Prod.fst := by
  unfold scanStep
  split
  · cases hp : parse_file f with
    | none => rfl
    | some s => exact addSample_keys res s
  · rfl

theorem foldl_scanStep_keys (files : List String) :
    ∀ res : List (String × List SampleFile),
      (files.foldl scanStep res).map Prod.fst = res.map Prod.fst := by
  induction files with
  | nil => intro res; rfl
  | cons f fs ih =>
    intro res
    rw [List.foldl_cons, ih (scanStep res f), scanStep_keys]

/-- Per-bucket correctness: every sample stored under a key carries that
key as its instrument. -/
def BucketsOk (res : List (String × List SampleFile)) : Prop :=
  ∀ p ∈ res, ∀ s ∈ p.2, s.instrument = p.1

theorem bucketsOk_empty : BucketsOk emptyBuckets := by
  intro p hp s hs
  unfold emptyBuckets at hp
  rcases List.mem_map.mp hp with ⟨i, _, rfl⟩
  simp at hs

theorem bucketsOk_addSample {res : List (String × List SampleFile)}
    (h : BucketsOk res) (s : SampleFile) : BucketsOk (addSample res s) := by
  intro p hp t ht
  unfold addSample at hp
  rcases List.mem_map.mp hp with ⟨q, hq, rfl⟩
  by_cases hqi : q.1 = s.instrument
  · rw [if_pos hqi] at ht ⊢
    simp only [] at ht
    rcases List.mem_append.mp ht with hin | hin
    · exact h q hq t hin
    · rw [List.mem_singleton.mp hin, hqi]
  · rw [if_neg hqi] at ht ⊢
    exact h q hq t ht

theorem bucketsOk_scanStep {res : List (String × List SampleFile)}
    (h : BucketsOk res) (f : String) : BucketsOk (scanStep res f) := by
  unfold scanStep
  split
  · cases hp : parse_file f with
    | none => exact h
    | some s => exact bucketsOk_addSample h s
  · exact h

theorem bucketsOk_foldl (files : List String) :
    ∀ res : List (String × List SampleFile),
      BucketsOk res → BucketsOk (files.foldl scanStep res) := by
  induction files with
  | nil => intro res h; exact h
  | cons f fs ih =>
    intro res h
    exact ih (scanStep res f) (bucketsOk_scanStep h f)

/-! ## Claim C10: scan keys and silently omitted drum instruments -/

/-- C10.  Every `scan()` result has exactly the 18 instruments of the
fixed enumeration as its key set, also when the directory is missing;
every stored sample sits in the bucket of its own instrument, so an
instrument outside the 18 buckets never appears; and a file whose drum
MIDI note maps to `pedal-hihat` (44), `crash` (49), `ride` (51),
`cowbell` (56) or `clave` (75) is successfully parsed to that instrument
but silently dropped, leaving the mapping all-empty. -/
theorem scan_bucket_keys (dirExists : Bool) (files : List String) :
    (scan dirExists files).map Prod.fst = ALL_INSTRUMENTS
    ∧ (∀ p ∈ scan dirExists files, ∀ s ∈ p.2, s.instrument = p.1)
    ∧ (∀ inst ∈ ["pedal-hihat", "crash", "ride", "cowbell", "clave"],
        inst ∉ ALL_INSTRUMENTS)
    ∧ (parse_file "44-a.wav"
        = some { filename := "44-a.wav", instrument := "pedal-hihat", midi_note := some 44 }
      ∧ parse_file "49-a.wav"
        = some { filename := "49-a.wav", instrument := "crash", midi_note := some 49 }
      ∧ parse_file "51-a.wav"
        = some { filename := "51-a.wav", instrument := "ride", midi_note := some 51 }
      ∧ parse_file "56-a.wav"
        = some { filename := "56-a.wav", instrument := "cowbell", midi_note := some 56 }
      ∧ parse_file "75-a.wav"
        = some { filename := "75-a.wav", instrument := "clave", midi_note := some 75 })
    ∧ scan true ["44-a.wav", "49-a.wav", "51-a.wav", "56-a.wav", "75-a.wav"]
        = emptyBuckets := by
  have hkeys : (scan dirExists files).map Prod.fst = ALL_INSTRUMENTS := by
    unfold scan
    split
    · rw [foldl_scanStep_keys]
      decide
    · decide
  have hok : ∀ p ∈ scan dirExists files, ∀ s ∈ p.2, s.instrument = p.1 := by
    unfold scan
    split
    · exact bucketsOk_foldl files emptyBuckets bucketsOk_empty
    · exact bucketsOk_empty
  exact ⟨hkeys, hok, by decide,
    ⟨by decide, by decide, by decide, by decide, by decide⟩, by decide⟩

/-- Witness for C10: a parsed `kick.wav` lands in the `kick` bucket and
carries the bucket's instrument. -/
theorem scan_bucket_keys_witness :
    (scan true ["kick.wav"]).map Prod.fst = ALL_INSTRUMENTS
    ∧ ({ filename := "kick.wav", instrument := "kick" } : SampleFile).instrument
        = "kick" :=
  ⟨(scan_bucket_keys true ["kick.wav"]).1,
    (scan_bucket_keys true ["kick.wav"]).2.1
      ("kick", [{ filename := "kick.wav", instrument := "kick" }]) (by decide)
      { filename := "kick.wav", instrument := "kick" } (by decide)⟩
